import Mathlib

/-!
# Teleport: web-session / nonce storage and the dynamic-label engine

Part 1 embeds `lib/services/local/session.go` (the `IdentityService` methods
`UpsertWebSession`, `GetWebSession`, `DeleteWebSession`, `GetNonce`,
`CreateNonce`, `DeleteNonce`).  Stateful code is written with explicit state
passing over an abstract backend; Go's `error` is `Option Error` (`none` is
`nil`) and a `(T, error)` pair is `Except Error T`.

Part 2 models the dynamic-label engine exercised by `lib/srv/labels_test.go`.
-/

namespace Teleport

/-! ## Part 1: `lib/services/local/session.go` -/

/-- Instants (`time.Time`) counted in nanoseconds; `0` is the zero time
(`time.Time{}`, for which `IsZero()` holds). -/
abbrev Time := Int

/-- A `time.Duration`, in nanoseconds. -/
abbrev Duration := Int

/-- The constant `time.Minute`. -/
def Minute : Duration := 60 * 1000000000

/-- The method `Time.Add`. -/
def Time.Add (t : Time) (d : Duration) : Time := t + d

/-- Byte slices (`[]byte`). -/
abbrev Bytes := List UInt8

/-- Errors as the callers of this file can tell them apart: `trace.BadParameter`
with its message, and any other error value (from the backend, a marshaler, the
random source or a constructor). -/
inductive Error where
  | BadParameter (msg : String)
  | NotFound (msg : String)
  | Other (msg : String)
  deriving DecidableEq, Repr

deriving instance DecidableEq for Except

/-- The function `trace.Wrap` on a non-nil error: it attaches a stack trace and
keeps the error. -/
def Wrap (err : Error) : Error := err

/-- The struct `backend.Item`, with the three fields this file fills in. -/
structure Item where
  Key : Bytes
  Value : Bytes
  Expires : Time
  deriving DecidableEq, Repr

/-- The part of the `backend.Backend` interface that `IdentityService` calls.
Every operation is handed the backend state and returns the next one, so that
a backend is free to react to each call (reads included). -/
structure Backend (σ : Type) where
  Put : Item → σ → Option Error × σ
  Get : Bytes → σ → Except Error Item × σ
  Delete : Bytes → σ → Option Error × σ

/-- Modelled from the spec: the resource metadata type is declared outside the
available sources; a name and an optional expiry (`Expires *time.Time`). -/
structure Metadata where
  Name : String
  Expires : Option Time
  deriving DecidableEq, Repr

/-- The method `Metadata.Expiry`: the zero time when no expiry is set. -/
def Metadata.Expiry (m : Metadata) : Time := m.Expires.getD 0

/-- Modelled from the spec: `services.WebSession` is declared outside the
available sources; a record with the metadata, the user, the bearer token expiry
and the remaining payload, read and written by the accessors used in this file. -/
structure WebSession where
  Metadata : Metadata
  User : String
  BearerTokenExpires : Time
  Payload : Bytes
  deriving DecidableEq, Repr

/-- The method `WebSession.SetUser`. -/
def WebSession.SetUser (w : WebSession) (u : String) : WebSession := { w with User := u }

/-- The method `WebSession.SetName`. -/
def WebSession.SetName (w : WebSession) (n : String) : WebSession :=
  { w with Metadata := { w.Metadata with Name := n } }

/-- The method `WebSession.GetUser`. -/
def WebSession.GetUser (w : WebSession) : String := w.User

/-- The method `WebSession.GetName`. -/
def WebSession.GetName (w : WebSession) : String := w.Metadata.Name

/-- The method `WebSession.GetMetadata`. -/
def WebSession.GetMetadata (w : WebSession) : Teleport.Metadata := w.Metadata

/-- The method `WebSession.GetBearerTokenExpiryTime`. -/
def WebSession.GetBearerTokenExpiryTime (w : WebSession) : Time := w.BearerTokenExpires

/-- The struct `services.NonceSpecV3` as built by `CreateNonce`. -/
structure NonceSpecV3 where
  Username : String
  ParentHash : String
  deriving DecidableEq, Repr

/-- Modelled from the spec: `services.Nonce` is declared outside the available
sources; a record with a name and a spec. -/
structure Nonce where
  Name : String
  Spec : NonceSpecV3
  deriving DecidableEq, Repr

/-- The method `Nonce.GetName`. -/
def Nonce.GetName (n : Nonce) : String := n.Name

/-- What `session.go` uses and does not define: the key prefixes, `backend.Key`,
`backend.EarliestExpiry`, the two marshalers, `services.NewNonce` and
`services.KindNonce`.  They are parameters of every operation below. -/
structure Deps where
  webPrefix : String
  usersPrefix : String
  sessionsPrefix : String
  noncesPrefix : String
  Key : List String → Bytes
  EarliestExpiry : List Time → Time
  MarshalWebSession : WebSession → Except Error Bytes
  UnmarshalWebSession : Bytes → Except Error WebSession
  KindNonce : String
  NewNonce : String → NonceSpecV3 → Except Error Nonce
  MarshalNonce : Nonce → Except Error Bytes
  UnmarshalNonce : Bytes → String → Except Error Nonce

section Session

variable {σ : Type}

/-- The method `IdentityService.UpsertWebSession` (session.go, lines 32-47). -/
def UpsertWebSession (B : Backend σ) (d : Deps) (user sid : String) (session : WebSession)
    (s : σ) : Option Error × σ :=
  let session := session.SetUser user
  let session := session.SetName sid
  match d.MarshalWebSession session with
  | .error err => (some (Wrap err), s)
  | .ok value =>
    let sessionMetadata := session.GetMetadata
    let item : Item :=
      { Key := d.Key [d.webPrefix, d.usersPrefix, user, d.sessionsPrefix, sid]
        Value := value
        Expires := d.EarliestExpiry [session.GetBearerTokenExpiryTime, sessionMetadata.Expiry] }
    let r := B.Put item s
    (r.1.map Wrap, r.2)

/-- The method `IdentityService.GetWebSession` (session.go, lines 78-98). -/
def GetWebSession (B : Backend σ) (d : Deps) (user sid : String) (s : σ) :
    Except Error WebSession × σ :=
  if user = "" then
    (.error (.BadParameter "missing username"), s)
  else if sid = "" then
    (.error (.BadParameter "missing session id"), s)
  else
    let r := B.Get (d.Key [d.webPrefix, d.usersPrefix, user, d.sessionsPrefix, sid]) s
    match r.1 with
    | .error err => (.error (Wrap err), r.2)
    | .ok item =>
      match d.UnmarshalWebSession item.Value with
      | .error err => (.error (Wrap err), r.2)
      | .ok session =>
        let session := session.SetUser user
        let session := session.SetName sid
        (.ok session, r.2)

/-- The method `IdentityService.DeleteWebSession` (session.go, lines 101-110). -/
def DeleteWebSession (B : Backend σ) (d : Deps) (user sid : String) (s : σ) :
    Option Error × σ :=
  if user = "" then
    (some (.BadParameter "missing username"), s)
  else if sid = "" then
    (some (.BadParameter "missing session id"), s)
  else
    let r := B.Delete (d.Key [d.webPrefix, d.usersPrefix, user, d.sessionsPrefix, sid]) s
    (r.1.map Wrap, r.2)

/-- The method `IdentityService.GetNonce` (session.go, lines 112-124). -/
def GetNonce (B : Backend σ) (d : Deps) (nonceID : String) (s : σ) :
    Except Error Nonce × σ :=
  let r := B.Get (d.Key [d.webPrefix, d.noncesPrefix, nonceID]) s
  match r.1 with
  | .error err => (.error (Wrap err), r.2)
  | .ok item =>
    match d.UnmarshalNonce item.Value d.KindNonce with
    | .error err => (.error (Wrap err), r.2)
    | .ok nonce => (.ok nonce, r.2)

/-- The method `IdentityService.CreateNonce` (session.go, lines 126-157).  `rand` is the
outcome of `utils.CryptoRandomHex(16)` and `now` the value of `time.Now()`. -/
def CreateNonce (B : Backend σ) (d : Deps) (rand : Except Error String) (now : Time)
    (username parentHash : String) (s : σ) : Except Error Nonce × σ :=
  match rand with
  | .error err => (.error (Wrap err), s)
  | .ok randomID =>
    match d.NewNonce randomID { Username := username, ParentHash := parentHash } with
    | .error err => (.error (Wrap err), s)
    | .ok nonce =>
      match d.MarshalNonce nonce with
      | .error err => (.error (Wrap err), s)
      | .ok value =>
        let item : Item :=
          { Key := d.Key [d.webPrefix, d.noncesPrefix, nonce.GetName]
            Value := value
            Expires := now.Add (1 * Minute) }
        let r := B.Put item s
        match r.1 with
        | some err => (.error (Wrap err), r.2)
        | none => (.ok nonce, r.2)

/-- The method `IdentityService.DeleteNonce` (session.go, lines 159-165). -/
def DeleteNonce (B : Backend σ) (d : Deps) (nonce : String) (s : σ) : Option Error × σ :=
  let r := B.Delete (d.Key [d.webPrefix, d.noncesPrefix, nonce]) s
  match r.1 with
  | some err => (some (Wrap err), r.2)
  | none => (none, r.2)

/-- A backend behaves as a key-value map: `view` reads the map out of a backend
state, `Get` answers from it and leaves it as it is, a successful `Put` binds
the item's key to the item and a successful `Delete` unbinds the key. -/
structure KeyValueMap (B : Backend σ) (view : σ → Bytes → Option Item) : Prop where
  get_bound : ∀ s k i, view s k = some i → (B.Get k s).1 = .ok i
  get_unbound : ∀ s k, view s k = none → ∃ e, (B.Get k s).1 = .error e
  get_view : ∀ s k, view (B.Get k s).2 = view s
  put_view : ∀ s i s1, B.Put i s = (none, s1) → view s1 = Function.update (view s) i.Key (some i)
  delete_view : ∀ s k s1, B.Delete k s = (none, s1) → view s1 = Function.update (view s) k none

end Session

/-! ### A concrete backend and concrete dependencies -/

/-- One call made on the backend. -/
inductive Call where
  | Put (i : Item)
  | Get (k : Bytes)
  | Delete (k : Bytes)
  deriving DecidableEq, Repr

/-- State of the in-memory backend: the stored items (at most one per key) and
the log of the calls received so far, oldest first. -/
structure Mem where
  items : List Item
  calls : List Call
  deriving DecidableEq, Repr

/-- The map held by an in-memory backend state. -/
def Mem.lookup (m : Mem) (k : Bytes) : Option Item := m.items.find? (fun i => i.Key = k)

/-- An in-memory backend that logs every call it receives.  `Get` and `Delete`
of an unbound key fail with `NotFound`. -/
def memBackend : Backend Mem where
  Put := fun i m =>
    (none, { items := i :: m.items.filter (fun j => ¬ j.Key = i.Key), calls := m.calls ++ [.Put i] })
  Get := fun k m =>
    (match m.lookup k with
      | some i => .ok i
      | none => .error (.NotFound "key is not found"),
     { m with calls := m.calls ++ [.Get k] })
  Delete := fun k m =>
    (match m.lookup k with
      | some _ => none
      | none => some (.NotFound "key is not found"),
     { items := m.items.filter (fun j => ¬ j.Key = k), calls := m.calls ++ [.Delete k] })

/-- Modelled from the spec: `backend.EarliestExpiry` is declared outside the
available sources; it returns the earliest of the given times, a zero time
standing for "no expiry" (later than every set time), and the zero time when no
time is given. -/
def earliestExpiry : List Time → Time
  | [] => 0
  | t :: ts =>
    let r := earliestExpiry ts
    if ts = [] then t
    else if r = 0 then t
    else if t = 0 then r
    else if r < t then r else t

/-- Modelled from the spec: `backend.Key` is declared outside the available
sources; the parts joined by the separator `/`, each preceded by it. -/
def joinKey (parts : List String) : Bytes :=
  (String.join (parts.map (fun p => "/" ++ p))).data.flatMap String.utf8EncodeChar

/-- A web-session codec that knows the single session `w0`, encoded as `code`. -/
def marshalOnly (w0 : WebSession) (code : Bytes) (w : WebSession) : Except Error Bytes :=
  if w = w0 then .ok code else .error (.Other "cannot marshal")

/-- Decoder of the codec `marshalOnly`. -/
def unmarshalOnly (w0 : WebSession) (code : Bytes) (b : Bytes) : Except Error WebSession :=
  if b = code then .ok w0 else .error (.Other "cannot unmarshal")

/-- A nonce codec that knows the single nonce `n0`, encoded as `code`. -/
def marshalNonceOnly (n0 : Nonce) (code : Bytes) (n : Nonce) : Except Error Bytes :=
  if n = n0 then .ok code else .error (.Other "cannot marshal")

/-- Decoder of the codec `marshalNonceOnly`; it checks the requested kind. -/
def unmarshalNonceOnly (n0 : Nonce) (code : Bytes) (b : Bytes) (kind : String) :
    Except Error Nonce :=
  if b = code ∧ kind = "nonce" then .ok n0 else .error (.Other "cannot unmarshal")

/-- Sample dependencies: the usual prefixes, `/`-joined keys, the earliest
expiry and one-entry codecs for the session `w0` and the nonce `n0`. -/
def sampleDeps (w0 : WebSession) (n0 : Nonce) : Deps where
  webPrefix := "web"
  usersPrefix := "users"
  sessionsPrefix := "sessions"
  noncesPrefix := "nonces"
  Key := joinKey
  EarliestExpiry := earliestExpiry
  MarshalWebSession := marshalOnly w0 [1]
  UnmarshalWebSession := unmarshalOnly w0 [1]
  KindNonce := "nonce"
  NewNonce := fun name spec => .ok { Name := name, Spec := spec }
  MarshalNonce := marshalNonceOnly n0 [2]
  UnmarshalNonce := unmarshalNonceOnly n0 [2]

/-- A session of user `alice` named `sid1` whose metadata expires (at 100)
before its bearer token does (at 200). -/
def sessionA : WebSession :=
  { Metadata := { Name := "sid1", Expires := some 100 }
    User := "alice"
    BearerTokenExpires := 200
    Payload := [7, 7] }

/-- The nonce named `c0ffee` of user `alice`. -/
def nonceA : Nonce := { Name := "c0ffee", Spec := { Username := "alice", ParentHash := "h1" } }

/-- The nonce named `c0ffee` with an empty spec. -/
def nonceBlank : Nonce := { Name := "c0ffee", Spec := { Username := "", ParentHash := "" } }

/-- Sample dependencies whose `NewNonce` keeps the name and drops the spec it is
given; the nonce codec knows `nonceBlank`. -/
def depsDrop : Deps :=
  { sampleDeps sessionA nonceBlank with
    NewNonce := fun name _ => .ok { Name := name, Spec := { Username := "", ParentHash := "" } } }

/-- The empty in-memory backend. -/
def emptyMem : Mem := { items := [], calls := [] }

/-- Sample dependencies whose session codec knows `sessionA` renamed to user
`bob` and session id `sid2`. -/
def depsBob : Deps := sampleDeps ((sessionA.SetUser "bob").SetName "sid2") nonceA

/-- The in-memory backend after `sessionA` was upserted for `bob` / `sid2`. -/
def memUpserted : Mem :=
  (UpsertWebSession memBackend depsBob "bob" "sid2" sessionA emptyMem).2

/-- The in-memory backend after the nonce `c0ffee` was created at time 1000. -/
def memNonce : Mem :=
  (CreateNonce memBackend depsBob (.ok "c0ffee") 1000 "alice" "h1" emptyMem).2

/-- An in-memory backend holding, under the key of `alice` / `sid1`, the bytes
that `depsBob` decodes to a session of user `bob` named `sid2`. -/
def memStale : Mem :=
  { items := [{ Key := joinKey ["web", "users", "alice", "sessions", "sid1"]
                Value := [1]
                Expires := 0 }]
    calls := [] }

/-! ## Part 2: the dynamic-label engine (`lib/srv`, exercised by `labels_test.go`)

The engine's own source file is not among the available sources; only its test
is.  The definitions of this part follow the specification of the engine. -/

/-- Modelled from the spec: the label configuration type (`services.CommandLabelV2`
in the test) is declared outside the available sources; a Label Spec without its
name: the refresh period and the command line, `argv[0]` first. -/
structure CommandLabel where
  Period : Duration
  Command : List String
  deriving DecidableEq, Repr

/-- Modelled from the spec: the Label Result is declared outside the available
sources; a text value, empty meaning "not yet computed". -/
structure LabelResult where
  Result : String
  deriving DecidableEq, Repr

/-- The accessor `GetResult` used by the test. -/
def LabelResult.GetResult (r : LabelResult) : String := r.Result

/-- Modelled from the spec: the boundary with the host process is outside the
available sources; what launching a command line can end in: the process exits
with a status and a standard output, or it cannot be run. -/
inductive ExecOutcome where
  | exited (status : Nat) (stdout : String)
  | notFound
  | permissionDenied
  | spawnFailure (msg : String)
  | timeout
  deriving DecidableEq, Repr

/-- The host: the outcome of the `i`-th process launch (counted from 0) when it
runs the given command line.  A command is deterministic when its outcome does
not depend on `i`. -/
abbrev Host := Nat → List String → ExecOutcome

/-- The command lines launched so far, oldest first. -/
abbrev Spawned := List (List String)

/-- Modelled from the spec: the engine's configuration errors are declared
outside the available sources; an invalid period (not greater than 0) or an empty
command line, with the name of the label. -/
inductive ConfigError where
  | invalidPeriod (name : String)
  | emptyCommand (name : String)
  deriving DecidableEq, Repr

/-- Modelled from the spec: `DynamicLabelsConfig` is declared outside the
available sources; the labels by name (a Go map, as an association list) and the
cancellation signal, `true` once it has fired. -/
structure DynamicLabelsConfig where
  Labels : List (String × CommandLabel)
  CloseContext : Bool
  deriving DecidableEq, Repr

/-- The label names of a configuration. -/
def DynamicLabelsConfig.names (c : DynamicLabelsConfig) : List String := c.Labels.map Prod.fst

/-- A Go map has one entry per key. -/
def DynamicLabelsConfig.WellFormed (c : DynamicLabelsConfig) : Prop := c.names.Nodup

instance (c : DynamicLabelsConfig) : Decidable c.WellFormed :=
  inferInstanceAs (Decidable c.names.Nodup)

/-- Modelled from the spec: the engine is declared outside the available
sources; one Label Spec per configured name, the Result Store, whether `Run` has
started the timers and whether the cancellation signal has fired. -/
structure DynamicLabels where
  specs : List (String × CommandLabel)
  store : List (String × LabelResult)
  running : Bool
  closed : Bool
  deriving DecidableEq, Repr

/-- Modelled from the spec: the Command Runner's trimming is outside the
available sources; trailing whitespace and newlines are stripped. -/
def trimOutput (out : String) : String :=
  String.mk (out.data.reverse.dropWhile Char.isWhitespace).reverse

/-- Modelled from the spec: the Command Runner's error texts are outside the
available sources; a human-readable description of an execution failure. -/
def describeFailure (cmd : List String) : ExecOutcome → String
  | .exited status out =>
    "exit status " ++ toString status ++ " output: " ++ out
  | .notFound => "exec: " ++ cmd.headD "" ++ ": executable file not found in $PATH"
  | .permissionDenied => "exec: " ++ cmd.headD "" ++ ": permission denied"
  | .spawnFailure msg => "exec: " ++ cmd.headD "" ++ ": " ++ msg
  | .timeout => "exec: " ++ cmd.headD "" ++ ": timed out"

/-- Modelled from the spec: the Command Runner's conversion of an outcome is
outside the available sources; the trimmed standard output when the process exits
with status 0, a descriptive error text otherwise. -/
def labelResult (cmd : List String) : ExecOutcome → LabelResult
  | .exited 0 out => { Result := trimOutput out }
  | outcome => { Result := describeFailure cmd outcome }

/-- Modelled from the spec: the Command Runner is outside the available sources;
it launches the command line once, waits for it and turns the outcome into a
Label Result. -/
def runCommand (host : Host) (cmd : List String) (w : Spawned) : LabelResult × Spawned :=
  (labelResult cmd (host w.length cmd), w ++ [cmd])

/-- Modelled from the spec: the Result Store's `set` is outside the available
sources; it replaces the entry for `name`, adding one when there is none. -/
def storeSet (name : String) (r : LabelResult) :
    List (String × LabelResult) → List (String × LabelResult)
  | [] => [(name, r)]
  | (n, x) :: t => if n = name then (n, r) :: t else (n, x) :: storeSet name r t

/-- Reading one entry of a snapshot, as in `l.Get()["foo"]`. -/
def storeGet (store : List (String × LabelResult)) (name : String) : Option LabelResult :=
  (store.find? (fun e => e.1 = name)).map Prod.snd

/-- Modelled from the spec: the validation of `NewDynamicLabels` is outside the
available sources; each label needs a period greater than 0 and a non-empty
command. -/
def checkLabels : List (String × CommandLabel) → Option ConfigError
  | [] => none
  | (name, label) :: rest =>
    if ¬ 0 < label.Period then some (.invalidPeriod name)
    else if label.Command = [] then some (.emptyCommand name)
    else checkLabels rest

/-- Modelled from the spec: `NewDynamicLabels` is outside the available sources;
it validates the configuration and, without launching anything, returns either a
configuration error or an engine whose store holds an empty result for every
configured name. -/
def NewDynamicLabels (config : DynamicLabelsConfig) (w : Spawned) :
    Except ConfigError DynamicLabels × Spawned :=
  match checkLabels config.Labels with
  | some err => (.error err, w)
  | none =>
    (.ok { specs := config.Labels
           store := config.Labels.map (fun e => (e.1, { Result := "" }))
           running := false
           closed := config.CloseContext }, w)

/-- Modelled from the spec: `Get` is outside the available sources; a snapshot of
the Result Store. -/
def DynamicLabels.Get (l : DynamicLabels) : List (String × LabelResult) := l.store

/-- Modelled from the spec: the per-label execution primitive is outside the
available sources; run the label's command and write the result into the store. -/
def updateLabel (host : Host) (name : String) (label : CommandLabel)
    (st : DynamicLabels × Spawned) : DynamicLabels × Spawned :=
  let r := runCommand host label.Command st.2
  ({ st.1 with store := storeSet name r.1 st.1.store }, r.2)

/-- Modelled from the spec: the pass over the label specs made by `Sync`. -/
def syncLabels (host : Host) :
    List (String × CommandLabel) → DynamicLabels × Spawned → DynamicLabels × Spawned
  | [], st => st
  | (name, label) :: rest, st => syncLabels host rest (updateLabel host name label st)

/-- Modelled from the spec: `Sync` is outside the available sources; for every
label it runs the command in the calling flow of control and writes the result
before returning. -/
def DynamicLabels.Sync (host : Host) (l : DynamicLabels) (w : Spawned) :
    DynamicLabels × Spawned :=
  syncLabels host l.specs (l, w)

/-- Modelled from the spec: `Run` is outside the available sources; it starts the
per-label timers and returns at once, running no command itself; a second call
starts nothing more. -/
def DynamicLabels.Run (l : DynamicLabels) : DynamicLabels := { l with running := true }

/-- Modelled from the spec: the timer tick of one label is outside the available
sources; when the timers run, the signal has not fired and the name is
configured, the label's command is run and its result written. -/
def DynamicLabels.tick (host : Host) (name : String) (l : DynamicLabels) (w : Spawned) :
    DynamicLabels × Spawned :=
  if l.running = true ∧ l.closed = false then
    match l.specs.find? (fun e => e.1 = name) with
    | some e => updateLabel host e.1 e.2 (l, w)
    | none => (l, w)
  else (l, w)

/-- What can happen to an engine after its construction. -/
inductive Event where
  | Sync
  | Run
  | Tick (name : String)
  | Cancel
  deriving DecidableEq, Repr

/-- One event applied to an engine and the launch log. -/
def step (host : Host) (st : DynamicLabels × Spawned) : Event → DynamicLabels × Spawned
  | .Sync => st.1.Sync host st.2
  | .Run => (st.1.Run, st.2)
  | .Tick name => st.1.tick host name st.2
  | .Cancel => ({ st.1 with closed := true }, st.2)

/-- A sequence of events applied in order. -/
def runEvents (host : Host) (st : DynamicLabels × Spawned) (es : List Event) :
    DynamicLabels × Spawned :=
  es.foldl (step host) st

/-- The host of the tests: `expr 1 + 3` prints `4` and a newline and exits with
status 0, `false` exits with status 1, and no other executable exists. -/
def testHost : Host := fun _ cmd =>
  if cmd = ["expr", "1", "+", "3"] then .exited 0 "4\n"
  else if cmd = ["false"] then .exited 1 ""
  else .notFound

/-- The configuration of `TestSync` and `TestRun`: label `foo`, period one
second, command `expr 1 + 3`. -/
def fooConfig : DynamicLabelsConfig :=
  { Labels := [("foo", { Period := 1000000000, Command := ["expr", "1", "+", "3"] })]
    CloseContext := false }

/-- The configuration of `TestInvalidCommand`: label `foo`, period one second, a
command naming an executable that does not exist. -/
def missingConfig : DynamicLabelsConfig :=
  { Labels := [("foo", { Period := 1000000000,
                         Command := ["5b0c3d1e-77aa-4d0e-9d0f-2f8f3f1c6a10"] })]
    CloseContext := false }

/-- The engine built from `fooConfig`. -/
def fooEngine : DynamicLabels :=
  { specs := fooConfig.Labels
    store := [("foo", { Result := "" })]
    running := false
    closed := false }

/-- A configuration whose label `foo` has period 0. -/
def zeroPeriodConfig : DynamicLabelsConfig :=
  { Labels := [("foo", { Period := 0, Command := ["expr", "1", "+", "3"] })]
    CloseContext := false }

/-! ### Lemmas on the embedding -/

theorem option_map_Wrap (e : Option Error) : e.map Wrap = e := by
  cases e <;> rfl

theorem set_user_name_twice (w : WebSession) (user sid : String) :
    (((w.SetUser user).SetName sid).SetUser user).SetName sid = (w.SetUser user).SetName sid := by
  cases w
  rfl

theorem find_filter_ne (items : List Item) (k : Bytes) :
    (items.filter (fun j => ¬ j.Key = k)).find? (fun i => i.Key = k) = none := by
  induction items with
  | nil => rfl
  | cons a t ih =>
    by_cases h : a.Key = k
    · simp only [List.filter_cons, h, not_true_eq_false, decide_False, Bool.false_eq_true,
        if_false, ih]
    · simp only [List.filter_cons, h, not_false_eq_true, decide_True, if_true,
        List.find?_cons, decide_False, ih]

theorem find_filter_other (items : List Item) (k k1 : Bytes) (h : k1 ≠ k) :
    (items.filter (fun j => ¬ j.Key = k)).find? (fun i => i.Key = k1)
      = items.find? (fun i => i.Key = k1) := by
  induction items with
  | nil => rfl
  | cons a t ih =>
    by_cases ha : a.Key = k
    · have hk1 : ¬ a.Key = k1 := fun e => h (e.symm.trans ha)
      simp only [List.filter_cons, ha, not_true_eq_false, decide_False, Bool.false_eq_true,
        if_false, ih, List.find?_cons]
      rw [← ha, decide_eq_false hk1]
    · simp only [List.filter_cons, ha, not_false_eq_true, decide_True, if_true,
        List.find?_cons, ih]

/-- The in-memory backend behaves as a key-value map. -/
theorem memBackend_keyValueMap : KeyValueMap memBackend Mem.lookup where
  get_bound := by
    intro s k i h
    simp [memBackend, h]
  get_unbound := by
    intro s k h
    exact ⟨.NotFound "key is not found", by simp [memBackend, h]⟩
  get_view := by
    intro s k
    rfl
  put_view := by
    intro s i s1 h
    simp only [memBackend, Prod.mk.injEq, true_and] at h
    subst h
    funext k
    by_cases hk : k = i.Key
    · subst hk
      simp [Mem.lookup, List.find?_cons]
    · have hk1 : ¬ i.Key = k := fun e => hk e.symm
      simp only [Mem.lookup, List.find?_cons, decide_eq_false hk1, Function.update_noteq hk]
      exact find_filter_other s.items i.Key k hk
  delete_view := by
    intro s k s1 h
    simp only [memBackend, Prod.mk.injEq] at h
    obtain ⟨_, h⟩ := h
    subst h
    funext k1
    by_cases hk : k1 = k
    · subst hk
      simp [Mem.lookup, find_filter_ne]
    · simp only [Mem.lookup, Function.update_noteq hk]
      exact find_filter_other s.items k k1 hk

theorem marshalOnly_inverse (w0 : WebSession) (code : Bytes) (x : WebSession) (b : Bytes)
    (h : marshalOnly w0 code x = .ok b) : unmarshalOnly w0 code b = .ok x := by
  unfold marshalOnly at h
  split at h
  · next hx =>
    cases h
    simp [unmarshalOnly, hx]
  · cases h

theorem marshalNonceOnly_inverse (n0 : Nonce) (code : Bytes) (x : Nonce) (b : Bytes)
    (h : marshalNonceOnly n0 code x = .ok b) : unmarshalNonceOnly n0 code b "nonce" = .ok x := by
  unfold marshalNonceOnly at h
  split at h
  · next hx =>
    cases h
    simp [unmarshalNonceOnly, hx]
  · cases h

/-! ### Theorems on `session.go` -/

section SessionTheorems

variable {σ : Type}

/-- What `UpsertWebSession` does when marshaling succeeds, on every backend: one
`Put` of the item whose key is `Key(webPrefix, usersPrefix, user, sessionsPrefix,
sid)`, whose value is the marshaled session and whose `Expires` is what
`EarliestExpiry` returns for the bearer token expiry and the metadata expiry. -/
theorem UpsertWebSession_puts (B : Backend σ) (d : Deps) (user sid : String)
    (session : WebSession) (value : Bytes) (s : σ) (m : Mem)
    (hm : d.MarshalWebSession ((session.SetUser user).SetName sid) = .ok value) :
    UpsertWebSession B d user sid session s
        = B.Put { Key := d.Key [d.webPrefix, d.usersPrefix, user, d.sessionsPrefix, sid]
                  Value := value
                  Expires := d.EarliestExpiry
                    [session.GetBearerTokenExpiryTime, session.GetMetadata.Expiry] } s ∧
      (UpsertWebSession memBackend d user sid session m).2.calls
        = m.calls ++ [Call.Put
            { Key := d.Key [d.webPrefix, d.usersPrefix, user, d.sessionsPrefix, sid]
              Value := value
              Expires := d.EarliestExpiry
                [session.GetBearerTokenExpiryTime, session.GetMetadata.Expiry] }] := by
  refine ⟨?_, ?_⟩
  · simp only [UpsertWebSession, hm, option_map_Wrap]
    rfl
  · simp only [UpsertWebSession, hm]
    rfl

/-- C5 (the code departs from the claim and from the doc comment of
`UpsertWebSession`): for `sessionA` (bearer token expiry 200, metadata expiry 100)
marshaling succeeds and the one call made on the backend is a `Put` of an item
whose `Expires` is `EarliestExpiry [200, 100]`, that is 100, the metadata expiry,
and not the bearer token expiry time 200. -/
theorem UpsertWebSession_expires_failing_input :
    (sampleDeps sessionA nonceA).MarshalWebSession ((sessionA.SetUser "alice").SetName "sid1")
        = .ok [1] ∧
      sessionA.GetBearerTokenExpiryTime = 200 ∧
      sessionA.GetMetadata.Expiry = 100 ∧
      (UpsertWebSession memBackend (sampleDeps sessionA nonceA) "alice" "sid1" sessionA
          emptyMem).2.calls
        = [Call.Put { Key := joinKey ["web", "users", "alice", "sessions", "sid1"]
                      Value := [1]
                      Expires := (sampleDeps sessionA nonceA).EarliestExpiry [200, 100] }] ∧
      (sampleDeps sessionA nonceA).EarliestExpiry [200, 100] = 100 ∧
      ¬ ∀ item : Item,
          (UpsertWebSession memBackend (sampleDeps sessionA nonceA) "alice" "sid1" sessionA
              emptyMem).2.calls = [Call.Put item] →
            item.Expires = sessionA.GetBearerTokenExpiryTime := by
  refine ⟨by decide, by decide, by decide, by decide, by decide, ?_⟩
  intro h
  have h1 := h { Key := joinKey ["web", "users", "alice", "sessions", "sid1"]
                 Value := [1]
                 Expires := 100 } (by decide)
  revert h1
  decide

/-- C6: over a backend that behaves as a key-value map and a marshaler whose
unmarshal inverts its marshal, for non-empty `user` and `sid` a successful
`UpsertWebSession` binds the key `Key(webPrefix, usersPrefix, user,
sessionsPrefix, sid)`, the following `GetWebSession` (which reads that same key)
succeeds and returns the upserted session with its user set to `user` and its
name set to `sid`, and after a later successful `DeleteWebSession` the same
`GetWebSession` returns an error. -/
theorem upsert_get_delete_web_session (B : Backend σ) (view : σ → Bytes → Option Item)
    (d : Deps) (hB : KeyValueMap B view)
    (hInv : ∀ x b, d.MarshalWebSession x = .ok b → d.UnmarshalWebSession b = .ok x)
    (user sid : String) (hu : user ≠ "") (hs : sid ≠ "") (session : WebSession) (s s1 : σ)
    (hUp : UpsertWebSession B d user sid session s = (none, s1)) :
    (∃ item, view s1 (d.Key [d.webPrefix, d.usersPrefix, user, d.sessionsPrefix, sid])
          = some item ∧
        d.MarshalWebSession ((session.SetUser user).SetName sid) = .ok item.Value) ∧
      (GetWebSession B d user sid s1).1 = .ok ((session.SetUser user).SetName sid) ∧
      ((session.SetUser user).SetName sid).GetUser = user ∧
      ((session.SetUser user).SetName sid).GetName = sid ∧
      ∀ s2 s3, DeleteWebSession B d user sid s2 = (none, s3) →
        ∃ e, (GetWebSession B d user sid s3).1 = .error e := by
  have hbound : ∃ item, view s1 (d.Key [d.webPrefix, d.usersPrefix, user, d.sessionsPrefix, sid])
        = some item ∧
      d.MarshalWebSession ((session.SetUser user).SetName sid) = .ok item.Value := by
    unfold UpsertWebSession at hUp
    simp only [option_map_Wrap] at hUp
    split at hUp
    · cases hUp
    · next value hval =>
      have hv := hB.put_view _ _ _ hUp
      exact ⟨_, by rw [hv]; simp only [Function.update_same]; rfl, hval⟩
  refine ⟨hbound, ?_, rfl, rfl, ?_⟩
  · obtain ⟨item, hitem, hval⟩ := hbound
    have hget := hB.get_bound _ _ _ hitem
    simp only [GetWebSession, hu, hs, if_false, hget, hInv _ _ hval, set_user_name_twice]
  · intro s2 s3 hDel
    simp only [DeleteWebSession, hu, hs, if_false, option_map_Wrap] at hDel
    have hv := hB.delete_view _ _ _ hDel
    have hnone : view s3 (d.Key [d.webPrefix, d.usersPrefix, user, d.sessionsPrefix, sid])
        = none := by
      rw [hv]; simp only [Function.update_same]
    obtain ⟨e, he⟩ := hB.get_unbound _ _ hnone
    exact ⟨Wrap e, by simp only [GetWebSession, hu, hs, if_false, he]⟩

/-- C6, witness: `sessionA` upserted for `bob` / `sid2` into the empty in-memory
backend is read back, and after the deletion the read fails. -/
theorem upsert_get_delete_web_session_witness :
    (GetWebSession memBackend depsBob "bob" "sid2" memUpserted).1
        = .ok ((sessionA.SetUser "bob").SetName "sid2") ∧
      ∃ e, (GetWebSession memBackend depsBob "bob" "sid2"
            (DeleteWebSession memBackend depsBob "bob" "sid2"
              (GetWebSession memBackend depsBob "bob" "sid2" memUpserted).2).2).1
          = .error e :=
  have h := upsert_get_delete_web_session memBackend Mem.lookup depsBob memBackend_keyValueMap
    (fun x b hx => marshalOnly_inverse _ _ x b hx) "bob" "sid2" (by decide) (by decide)
    sessionA emptyMem memUpserted (by decide)
  ⟨h.2.1, h.2.2.2.2 (GetWebSession memBackend depsBob "bob" "sid2" memUpserted).2
    (DeleteWebSession memBackend depsBob "bob" "sid2"
      (GetWebSession memBackend depsBob "bob" "sid2" memUpserted).2).2 (by decide)⟩

/-- C7: `GetWebSession` and `DeleteWebSession` check their arguments in the same
order.  With an empty `user` (whatever `sid`) both return
`BadParameter "missing username"`; otherwise with an empty `sid` both return
`BadParameter "missing session id"`; in both cases the backend state is returned
untouched, for every backend, and the call log of the in-memory backend shows no
call.  With both arguments non-empty the checks produce no error: the backend is
called on `Key(webPrefix, usersPrefix, user, sessionsPrefix, sid)`, `Delete`
returns what the backend returns, and `GetWebSession` fails only with an error of
the backend or of the unmarshaler. -/
theorem missing_parameter_checks (B : Backend σ) (d : Deps) (user sid : String) (s : σ)
    (m : Mem) :
    (user = "" →
        GetWebSession B d user sid s = (.error (.BadParameter "missing username"), s) ∧
        DeleteWebSession B d user sid s = (some (.BadParameter "missing username"), s) ∧
        (GetWebSession memBackend d user sid m).2.calls = m.calls ∧
        (DeleteWebSession memBackend d user sid m).2.calls = m.calls) ∧
      (user ≠ "" → sid = "" →
        GetWebSession B d user sid s = (.error (.BadParameter "missing session id"), s) ∧
        DeleteWebSession B d user sid s = (some (.BadParameter "missing session id"), s) ∧
        (GetWebSession memBackend d user sid m).2.calls = m.calls ∧
        (DeleteWebSession memBackend d user sid m).2.calls = m.calls) ∧
      (user ≠ "" → sid ≠ "" →
        DeleteWebSession B d user sid s
          = B.Delete (d.Key [d.webPrefix, d.usersPrefix, user, d.sessionsPrefix, sid]) s ∧
        (GetWebSession B d user sid s).2
          = (B.Get (d.Key [d.webPrefix, d.usersPrefix, user, d.sessionsPrefix, sid]) s).2 ∧
        (∀ e, (GetWebSession B d user sid s).1 = .error e →
          (B.Get (d.Key [d.webPrefix, d.usersPrefix, user, d.sessionsPrefix, sid]) s).1
              = .error e ∨
            ∃ item,
              (B.Get (d.Key [d.webPrefix, d.usersPrefix, user, d.sessionsPrefix, sid]) s).1
                = .ok item ∧ d.UnmarshalWebSession item.Value = .error e) ∧
        (GetWebSession memBackend d user sid m).2.calls
          = m.calls ++ [Call.Get (d.Key [d.webPrefix, d.usersPrefix, user, d.sessionsPrefix, sid])] ∧
        (DeleteWebSession memBackend d user sid m).2.calls
          = m.calls ++
              [Call.Delete (d.Key [d.webPrefix, d.usersPrefix, user, d.sessionsPrefix, sid])]) := by
  refine ⟨?_, ?_, ?_⟩
  · intro hu
    simp only [GetWebSession, DeleteWebSession, hu, if_true, and_self]
  · intro hu hs
    simp only [GetWebSession, DeleteWebSession, hu, hs, if_true, if_false, and_self]
  · intro hu hs
    have hget : ∀ {τ : Type} (C : Backend τ) (t : τ),
        (GetWebSession C d user sid t).2
          = (C.Get (d.Key [d.webPrefix, d.usersPrefix, user, d.sessionsPrefix, sid]) t).2 := by
      intro τ C t
      simp only [GetWebSession, hu, hs, if_false]
      split
      · rfl
      · split <;> rfl
    refine ⟨?_, hget B s, ?_, ?_, ?_⟩
    · simp only [DeleteWebSession, hu, hs, if_false, option_map_Wrap]
    · intro e he
      simp only [GetWebSession, hu, hs, if_false] at he
      split at he
      · next err herr =>
        left
        simp only [Except.error.injEq] at he
        rw [herr, ← he]
        rfl
      · next item hitem =>
        right
        refine ⟨item, hitem, ?_⟩
        split at he
        · next err herr =>
          simp only [Except.error.injEq] at he
          rw [herr, ← he]
          rfl
        · cases he
    · rw [hget memBackend m]
      rfl
    · simp only [DeleteWebSession, hu, hs, if_false]
      rfl

/-- C7, witness: an empty user with a non-empty session id, and a non-empty user
with an empty session id, on the in-memory backend holding one session. -/
theorem missing_parameter_checks_witness :
    GetWebSession memBackend depsBob "" "sid2" memUpserted
        = (.error (.BadParameter "missing username"), memUpserted) ∧
      DeleteWebSession memBackend depsBob "bob" "" memUpserted
        = (some (.BadParameter "missing session id"), memUpserted) ∧
      DeleteWebSession memBackend depsBob "bob" "sid2" memUpserted
        = memBackend.Delete
            (depsBob.Key [depsBob.webPrefix, depsBob.usersPrefix, "bob",
              depsBob.sessionsPrefix, "sid2"]) memUpserted :=
  ⟨((missing_parameter_checks memBackend depsBob "" "sid2" memUpserted emptyMem).1 rfl).1,
    ((missing_parameter_checks memBackend depsBob "bob" "" memUpserted emptyMem).2.1
      (by decide) rfl).2.1,
    ((missing_parameter_checks memBackend depsBob "bob" "sid2" memUpserted emptyMem).2.2
      (by decide) (by decide)).1⟩

/-- C8: whenever `GetWebSession(user, sid)` returns a session without error, the
session's user is `user` and its name is `sid`, whatever the stored bytes
decode to. -/
theorem get_web_session_overwrites (B : Backend σ) (d : Deps) (user sid : String) (s : σ)
    (w : WebSession) (h : (GetWebSession B d user sid s).1 = .ok w) :
    w.GetUser = user ∧ w.GetName = sid := by
  unfold GetWebSession at h
  split at h
  · cases h
  · split at h
    · cases h
    · simp only at h
      split at h
      · cases h
      · split at h
        · cases h
        · simp only [Except.ok.injEq] at h
          subst h
          exact ⟨rfl, rfl⟩

/-- C8, witness: the bytes stored under the key of `alice` / `sid1` decode to a
session of user `bob` named `sid2`; the session returned is `alice` / `sid1`. -/
theorem get_web_session_overwrites_witness :
    depsBob.UnmarshalWebSession [1] = .ok ((sessionA.SetUser "bob").SetName "sid2") ∧
      (GetWebSession memBackend depsBob "alice" "sid1" memStale).1
        = .ok ((sessionA.SetUser "alice").SetName "sid1") ∧
      ((sessionA.SetUser "alice").SetName "sid1").GetUser = "alice" ∧
      ((sessionA.SetUser "alice").SetName "sid1").GetName = "sid1" :=
  ⟨by decide, by decide,
    get_web_session_overwrites memBackend depsBob "alice" "sid1" memStale
      ((sessionA.SetUser "alice").SetName "sid1") (by decide)⟩

/-- C9 (as amended): over a backend that behaves as a key-value map and a nonce
marshaler whose unmarshal (for `KindNonce`) inverts its marshal, every successful
`CreateNonce(ctx, username, parentHash)` returns the nonce that `NewNonce` built
from the random id and a `NonceSpecV3` carrying `username` and `parentHash` (so
its spec carries them whenever `NewNonce` keeps the spec it is given); the
marshaled nonce is bound to `Key(webPrefix, noncesPrefix, nonce.GetName())` with
an expiry one minute (60 * 10^9 ns) after `now`; `GetNonce` of that name then
returns the nonce, and after a successful `DeleteNonce` of that name `GetNonce`
returns an error. -/
theorem create_get_delete_nonce (B : Backend σ) (view : σ → Bytes → Option Item) (d : Deps)
    (hB : KeyValueMap B view)
    (hInv : ∀ x b, d.MarshalNonce x = .ok b → d.UnmarshalNonce b d.KindNonce = .ok x)
    (rand : Except Error String) (now : Time) (username parentHash : String) (s s1 : σ)
    (nonce : Nonce)
    (hC : CreateNonce B d rand now username parentHash s = (.ok nonce, s1)) :
    (∃ randomID, rand = .ok randomID ∧
        d.NewNonce randomID { Username := username, ParentHash := parentHash } = .ok nonce) ∧
      ((∀ id spec n, d.NewNonce id spec = .ok n → n.Spec = spec) →
        nonce.Spec = { Username := username, ParentHash := parentHash }) ∧
      (∃ value, d.MarshalNonce nonce = .ok value ∧
        view s1 (d.Key [d.webPrefix, d.noncesPrefix, nonce.GetName])
          = some { Key := d.Key [d.webPrefix, d.noncesPrefix, nonce.GetName]
                   Value := value
                   Expires := now + 60000000000 }) ∧
      (GetNonce B d nonce.GetName s1).1 = .ok nonce ∧
      ∀ s2 s3, DeleteNonce B d nonce.GetName s2 = (none, s3) →
        ∃ e, (GetNonce B d nonce.GetName s3).1 = .error e := by
  have hcreate : (∃ randomID, rand = .ok randomID ∧
        d.NewNonce randomID { Username := username, ParentHash := parentHash } = .ok nonce) ∧
      ∃ value, d.MarshalNonce nonce = .ok value ∧
        view s1 (d.Key [d.webPrefix, d.noncesPrefix, nonce.GetName])
          = some { Key := d.Key [d.webPrefix, d.noncesPrefix, nonce.GetName]
                   Value := value
                   Expires := now + 60000000000 } := by
    unfold CreateNonce at hC
    split at hC
    · cases hC
    · next randomID =>
      split at hC
      · cases hC
      · next n hn =>
        split at hC
        · cases hC
        · next value hval =>
          simp only at hC
          split at hC
          · cases hC
          · next hput =>
            simp only [Prod.mk.injEq, Except.ok.injEq] at hC
            obtain ⟨h1, h2⟩ := hC
            subst h1
            have hput1 : B.Put { Key := d.Key [d.webPrefix, d.noncesPrefix, n.GetName]
                                 Value := value
                                 Expires := Time.Add now (1 * Minute) } s = (none, s1) := by
              rw [← h2, ← hput]
            have hv := hB.put_view _ _ _ hput1
            refine ⟨⟨randomID, rfl, hn⟩, value, hval, ?_⟩
            rw [hv]
            simp only [Function.update_same]
            rfl
  obtain ⟨⟨randomID, hr, hn⟩, value, hval, hview⟩ := hcreate
  refine ⟨⟨randomID, hr, hn⟩, fun hNew => hNew _ _ _ hn, ⟨value, hval, hview⟩, ?_, ?_⟩
  · have hget := hB.get_bound _ _ _ hview
    simp only [GetNonce, hget, hInv _ _ hval]
  · intro s2 s3 hDel
    unfold DeleteNonce at hDel
    simp only at hDel
    split at hDel
    · cases hDel
    · next hnone =>
      simp only [Prod.mk.injEq, true_and] at hDel
      have hdel : B.Delete (d.Key [d.webPrefix, d.noncesPrefix, nonce.GetName]) s2
          = (none, s3) := by
        rw [← hDel, ← hnone]
      have hv := hB.delete_view _ _ _ hdel
      have hunbound : view s3 (d.Key [d.webPrefix, d.noncesPrefix, nonce.GetName]) = none := by
        rw [hv]; simp only [Function.update_same]
      obtain ⟨e, he⟩ := hB.get_unbound _ _ hunbound
      exact ⟨Wrap e, by simp only [GetNonce, he]⟩

/-- C9, witness: the nonce `c0ffee` created at time 1000 in the empty in-memory
backend is the one `NewNonce` built, it is read back, and after its deletion the
read fails. -/
theorem create_get_delete_nonce_witness :
    (∃ randomID, (Except.ok "c0ffee" : Except Error String) = .ok randomID ∧
        depsBob.NewNonce randomID { Username := "alice", ParentHash := "h1" } = .ok nonceA) ∧
      nonceA.Spec = { Username := "alice", ParentHash := "h1" } ∧
      (GetNonce memBackend depsBob nonceA.GetName memNonce).1 = .ok nonceA ∧
      ∃ e, (GetNonce memBackend depsBob nonceA.GetName
            (DeleteNonce memBackend depsBob nonceA.GetName memNonce).2).1 = .error e :=
  have h := create_get_delete_nonce memBackend Mem.lookup depsBob memBackend_keyValueMap
    (fun x b hx => marshalNonceOnly_inverse _ _ x b hx)
    (.ok "c0ffee") 1000 "alice" "h1" emptyMem memNonce nonceA (by decide)
  ⟨h.1, h.2.1 (fun _ _ _ hn => by cases hn; rfl), h.2.2.2.1,
    h.2.2.2.2 memNonce (DeleteNonce memBackend depsBob nonceA.GetName memNonce).2 (by decide)⟩

/-- C9, counterexample: with `depsDrop`, whose `NewNonce` does not keep the spec
it is given, the backend behaves as a key-value map and the nonce unmarshaler
inverts the marshaler, `CreateNonce(ctx, "alice", "h1")` succeeds, and the nonce
it returns has a spec that carries neither `alice` nor `h1`. -/
theorem create_nonce_spec_counterexample :
    KeyValueMap memBackend Mem.lookup ∧
      (∀ x b, depsDrop.MarshalNonce x = .ok b →
        depsDrop.UnmarshalNonce b depsDrop.KindNonce = .ok x) ∧
      (CreateNonce memBackend depsDrop (.ok "c0ffee") 1000 "alice" "h1" emptyMem).1
        = .ok nonceBlank ∧
      nonceBlank.Spec ≠ { Username := "alice", ParentHash := "h1" } :=
  ⟨memBackend_keyValueMap, fun x b hx => marshalNonceOnly_inverse _ _ x b hx,
    by decide, by decide⟩

end SessionTheorems

/-! ### Lemmas on the label engine -/

theorem storeSet_keys (name : String) (r : LabelResult) (store : List (String × LabelResult))
    (h : name ∈ store.map Prod.fst) :
    (storeSet name r store).map Prod.fst = store.map Prod.fst := by
  induction store with
  | nil => simp at h
  | cons a t ih =>
    obtain ⟨n, x⟩ := a
    by_cases hn : n = name
    · simp only [storeSet, hn, if_true, List.map_cons]
    · have ht : name ∈ t.map Prod.fst := by
        simp only [List.map_cons, List.mem_cons] at h
        rcases h with h | h
        · exact absurd h.symm hn
        · exact h
      simp only [storeSet, hn, if_false, List.map_cons, ih ht]

theorem storeGet_storeSet_same (name : String) (r : LabelResult)
    (store : List (String × LabelResult)) :
    storeGet (storeSet name r store) name = some r := by
  induction store with
  | nil => simp [storeSet, storeGet]
  | cons a t ih =>
    obtain ⟨n, x⟩ := a
    by_cases hn : n = name
    · simp [storeSet, storeGet, hn]
    · simp only [storeGet] at ih
      simp [storeSet, storeGet, hn, List.find?_cons, ih]

theorem storeGet_storeSet_other (name other : String) (r : LabelResult)
    (store : List (String × LabelResult)) (h : other ≠ name) :
    storeGet (storeSet name r store) other = storeGet store other := by
  induction store with
  | nil =>
    have h1 : ¬ name = other := fun e => h e.symm
    simp [storeSet, storeGet, h1]
  | cons a t ih =>
    obtain ⟨n, x⟩ := a
    by_cases hn : n = name
    · have h1 : ¬ name = other := fun e => h e.symm
      simp [storeSet, storeGet, hn, List.find?_cons, h1]
    · simp only [storeGet] at ih
      by_cases ho : n = other
      · subst ho
        simp only [storeSet, storeGet, hn, if_false, List.find?_cons, decide_True]
      · simp only [storeSet, storeGet, hn, if_false, List.find?_cons, ho, decide_False, ih]

theorem syncLabels_specs (host : Host) (specs : List (String × CommandLabel))
    (st : DynamicLabels × Spawned) :
    (syncLabels host specs st).1.specs = st.1.specs ∧
      (syncLabels host specs st).1.running = st.1.running ∧
      (syncLabels host specs st).1.closed = st.1.closed ∧
      (syncLabels host specs st).2.length = st.2.length + specs.length := by
  induction specs generalizing st with
  | nil => exact ⟨rfl, rfl, rfl, rfl⟩
  | cons a t ih =>
    obtain ⟨n, x⟩ := a
    obtain ⟨h1, h2, h3, h4⟩ := ih (updateLabel host n x st)
    refine ⟨h1, h2, h3, ?_⟩
    show (syncLabels host t (updateLabel host n x st)).2.length = st.2.length + (t.length + 1)
    rw [h4]
    simp only [updateLabel, runCommand, List.length_append, List.length_cons, List.length_nil]
    omega

theorem syncLabels_keys (host : Host) (specs : List (String × CommandLabel))
    (st : DynamicLabels × Spawned)
    (h : ∀ e ∈ specs, e.1 ∈ st.1.store.map Prod.fst) :
    (syncLabels host specs st).1.store.map Prod.fst = st.1.store.map Prod.fst := by
  induction specs generalizing st with
  | nil => rfl
  | cons a t ih =>
    obtain ⟨n, x⟩ := a
    have hn : n ∈ st.1.store.map Prod.fst := h (n, x) (List.mem_cons_self _ _)
    have hk : (updateLabel host n x st).1.store.map Prod.fst = st.1.store.map Prod.fst :=
      storeSet_keys n _ _ hn
    have := ih (updateLabel host n x st) (by
      intro e he
      rw [hk]
      exact h e (List.mem_cons_of_mem _ he))
    simp only [syncLabels, this, hk]

theorem syncLabels_untouched (host : Host) (specs : List (String × CommandLabel))
    (st : DynamicLabels × Spawned) (name : String) (h : name ∉ specs.map Prod.fst) :
    storeGet (syncLabels host specs st).1.store name = storeGet st.1.store name := by
  induction specs generalizing st with
  | nil => rfl
  | cons a t ih =>
    obtain ⟨n, x⟩ := a
    simp only [List.map_cons, List.mem_cons, not_or] at h
    simp only [syncLabels]
    rw [ih _ h.2]
    exact storeGet_storeSet_other n name _ _ h.1

theorem syncLabels_result (host : Host) (specs : List (String × CommandLabel))
    (st : DynamicLabels × Spawned) (name : String) (label : CommandLabel) (o : ExecOutcome)
    (hnd : (specs.map Prod.fst).Nodup) (hmem : (name, label) ∈ specs)
    (ho : ∀ i, host i label.Command = o) :
    storeGet (syncLabels host specs st).1.store name = some (labelResult label.Command o) := by
  induction specs generalizing st with
  | nil => simp at hmem
  | cons a t ih =>
    obtain ⟨n, x⟩ := a
    simp only [List.map_cons, List.nodup_cons] at hnd
    simp only [List.mem_cons] at hmem
    rcases hmem with hmem | hmem
    · simp only [Prod.mk.injEq] at hmem
      obtain ⟨h1, h2⟩ := hmem
      subst h1 h2
      simp only [syncLabels]
      rw [syncLabels_untouched host t _ name hnd.1]
      simp only [updateLabel, runCommand, ho]
      exact storeGet_storeSet_same _ _ _
    · simp only [syncLabels]
      exact ih _ hnd.2 hmem

theorem checkLabels_none_iff (labels : List (String × CommandLabel)) :
    checkLabels labels = none ↔ ∀ e ∈ labels, 0 < e.2.Period ∧ e.2.Command ≠ [] := by
  induction labels with
  | nil => simp [checkLabels]
  | cons a t ih =>
    obtain ⟨n, x⟩ := a
    by_cases hp : 0 < x.Period
    · by_cases hc : x.Command = []
      · simp [checkLabels, hp, hc]
      · simp [checkLabels, hp, hc, ih]
    · simp [checkLabels, hp]

theorem NewDynamicLabels_ok (config : DynamicLabelsConfig) (w w1 : Spawned) (l : DynamicLabels)
    (h : NewDynamicLabels config w = (.ok l, w1)) :
    l = { specs := config.Labels
          store := config.Labels.map (fun e => (e.1, { Result := "" }))
          running := false
          closed := config.CloseContext } ∧ w1 = w := by
  unfold NewDynamicLabels at h
  split at h
  · cases h
  · simp only [Prod.mk.injEq, Except.ok.injEq] at h
    exact ⟨h.1.symm, h.2.symm⟩

theorem step_invariant (host : Host) (names : List String) (st : DynamicLabels × Spawned)
    (e : Event) (hspecs : st.1.specs.map Prod.fst = names)
    (hkeys : st.1.store.map Prod.fst = names) :
    (step host st e).1.specs = st.1.specs ∧
      (step host st e).1.store.map Prod.fst = names ∧
      st.2.length ≤ (step host st e).2.length ∧
      ((step host st e).2.length = st.2.length → (step host st e).1.store = st.1.store) := by
  have hin : ∀ x ∈ st.1.specs, x.1 ∈ st.1.store.map Prod.fst := by
    intro x hx
    rw [hkeys, ← hspecs]
    exact List.mem_map_of_mem _ hx
  cases e with
  | Sync =>
    obtain ⟨h1, _, _, h4⟩ := syncLabels_specs host st.1.specs st
    have h5 := syncLabels_keys host st.1.specs st hin
    refine ⟨h1, h5.trans hkeys, ?_, ?_⟩
    · show st.2.length ≤ (syncLabels host st.1.specs st).2.length
      omega
    · intro hlen
      have hlen1 : (syncLabels host st.1.specs st).2.length = st.2.length := hlen
      have h0 : st.1.specs.length = 0 := by omega
      have hnil : st.1.specs = [] := List.length_eq_zero.mp h0
      show (syncLabels host st.1.specs st).1.store = st.1.store
      rw [hnil]
      rfl
  | Run => exact ⟨rfl, hkeys, le_refl _, fun _ => rfl⟩
  | Cancel => exact ⟨rfl, hkeys, le_refl _, fun _ => rfl⟩
  | Tick name =>
    simp only [step, DynamicLabels.tick]
    split
    · split
      · next x hx =>
        have hmem : x ∈ st.1.specs := List.mem_of_find?_eq_some hx
        refine ⟨rfl, ?_, ?_, ?_⟩
        · exact (storeSet_keys x.1 _ _ (hin x hmem)).trans hkeys
        · simp only [updateLabel, runCommand, List.length_append, List.length_cons,
            List.length_nil]
          omega
        · intro hlen
          simp only [updateLabel, runCommand, List.length_append, List.length_cons,
            List.length_nil] at hlen
          omega
      · exact ⟨rfl, hkeys, le_refl _, fun _ => rfl⟩
    · exact ⟨rfl, hkeys, le_refl _, fun _ => rfl⟩

theorem runEvents_invariant (host : Host) (names : List String) (es : List Event)
    (st : DynamicLabels × Spawned) (hspecs : st.1.specs.map Prod.fst = names)
    (hkeys : st.1.store.map Prod.fst = names) :
    (runEvents host st es).1.store.map Prod.fst = names ∧
      st.2.length ≤ (runEvents host st es).2.length ∧
      ((runEvents host st es).2.length = st.2.length →
        (runEvents host st es).1.store = st.1.store) := by
  induction es generalizing st with
  | nil => exact ⟨hkeys, le_refl _, fun _ => rfl⟩
  | cons e t ih =>
    obtain ⟨h1, h2, h3, h4⟩ := step_invariant host names st e hspecs hkeys
    obtain ⟨k1, k2, k3⟩ := ih (step host st e) (by rw [h1]; exact hspecs) h2
    have hrun : runEvents host st (e :: t) = runEvents host (step host st e) t := rfl
    rw [hrun]
    refine ⟨k1, le_trans h3 k2, ?_⟩
    intro hlen
    have hstep : (step host st e).2.length = st.2.length := by omega
    rw [k3 (by omega), h4 hstep]

theorem describe_notFound_contains (cmd : List String) :
    "executable file not found".data <:+: (labelResult cmd .notFound).GetResult.data := by
  refine ⟨("exec: " ++ cmd.headD "" ++ ": ").data, " in $PATH".data, ?_⟩
  simp only [labelResult, describeFailure, LabelResult.GetResult, String.data_append]
  simp only [← String.data_append, List.append_assoc]
  rfl

/-! ### Theorems on the label engine -/

/-- C1: for every engine built by `NewDynamicLabels` from a (well-formed)
configuration, `Sync()` followed at once by `Get()` gives a map that contains
every configured label name, and every label whose command is deterministic and
exits with status 0 has as its result the trimmed standard output of the
command. -/
theorem sync_then_get (host : Host) (config : DynamicLabelsConfig) (hwf : config.WellFormed)
    (w w1 : Spawned) (l : DynamicLabels) (hnew : NewDynamicLabels config w = (.ok l, w1)) :
    (∀ name ∈ config.names, ∃ r, storeGet (l.Sync host w1).1.Get name = some r) ∧
      (l.Sync host w1).1.Get.map Prod.fst = config.names ∧
      ∀ name label out, (name, label) ∈ config.Labels →
        (∀ i, host i label.Command = .exited 0 out) →
        (storeGet (l.Sync host w1).1.Get name).map LabelResult.GetResult
          = some (trimOutput out) := by
  obtain ⟨hl, _⟩ := NewDynamicLabels_ok config w w1 l hnew
  have hspecs : l.specs = config.Labels := by rw [hl]
  have hres : ∀ name label, (name, label) ∈ config.Labels →
      ∃ r, storeGet (l.Sync host w1).1.Get name = some r := by
    intro name label hmem
    have hkeys : (syncLabels host l.specs (l, w1)).1.store.map Prod.fst
        = l.store.map Prod.fst :=
      syncLabels_keys host l.specs (l, w1) (by
        intro e he
        rw [hl]
        simp only [List.map_map]
        rw [hl] at he
        exact List.mem_map_of_mem (Prod.fst ∘ fun e => (e.1, ({ Result := "" } : LabelResult))) he)
    have hin : name ∈ (syncLabels host l.specs (l, w1)).1.store.map Prod.fst := by
      rw [hkeys, hl]
      simp only [List.map_map]
      exact List.mem_map_of_mem (Prod.fst ∘ fun e => (e.1, ({ Result := "" } : LabelResult))) hmem
    obtain ⟨⟨n, r⟩, hr, hn⟩ := List.mem_map.mp hin
    simp only at hn
    subst hn
    have hsome : ((syncLabels host l.specs (l, w1)).1.store.find? (fun e => e.1 = n)).isSome := by
      rw [List.find?_isSome]
      exact ⟨(n, r), hr, by simp⟩
    obtain ⟨x, hx⟩ := Option.isSome_iff_exists.mp hsome
    exact ⟨x.2, by simp only [DynamicLabels.Sync, DynamicLabels.Get, storeGet, hx, Option.map_some']⟩
  refine ⟨?_, ?_, ?_⟩
  · intro name hname
    obtain ⟨⟨n, label⟩, hmem, hn⟩ := List.mem_map.mp hname
    simp only at hn
    subst hn
    exact hres n label hmem
  · have hkeys := syncLabels_keys host l.specs (l, w1) (by
      intro e he
      rw [hl]
      simp only [List.map_map]
      rw [hl] at he
      exact List.mem_map_of_mem (Prod.fst ∘ fun e => (e.1, ({ Result := "" } : LabelResult))) he)
    simp only [DynamicLabels.Sync, DynamicLabels.Get, hkeys]
    rw [hl]
    simp only [List.map_map, DynamicLabelsConfig.names]
    rfl
  · intro name label out hmem hdet
    have h := syncLabels_result host l.specs (l, w1) name label (.exited 0 out)
      (by rw [hspecs]; exact hwf) (by rw [hspecs]; exact hmem) hdet
    simp only [DynamicLabels.Sync, DynamicLabels.Get, h, Option.map_some', labelResult,
      LabelResult.GetResult]

/-- C1, witness: the test `TestSync`: label `foo`, period one second, command
`expr 1 + 3`; after `Sync()`, `Get()["foo"].GetResult()` is `4`. -/
theorem sync_then_get_witness :
    NewDynamicLabels fooConfig [] = (.ok fooEngine, []) ∧
      (storeGet (fooEngine.Sync testHost []).1.Get "foo").map LabelResult.GetResult
        = some "4" :=
  ⟨by decide,
    (sync_then_get testHost fooConfig (by decide) [] [] fooEngine (by decide)).2.2
      "foo" { Period := 1000000000, Command := ["expr", "1", "+", "3"] } "4\n"
      (by decide) (fun _ => rfl)⟩

/-- C2: in a configuration that passes validation (every period greater than 0,
every command non-empty), for every label whose command names an executable
that does not exist, `NewDynamicLabels` returns an engine and no error, `Sync()`
returns, and `Get()` then contains the label with a result text that contains
`executable file not found`: the failure is the label's value, and neither `Sync`
nor `Get` has an error to return. -/
theorem sync_missing_executable (host : Host) (config : DynamicLabelsConfig)
    (hwf : config.WellFormed)
    (hvalid : ∀ e ∈ config.Labels, 0 < e.2.Period ∧ e.2.Command ≠ [])
    (name : String) (label : CommandLabel) (hmem : (name, label) ∈ config.Labels)
    (hmissing : ∀ i, host i label.Command = .notFound) (w : Spawned) :
    ∃ l, NewDynamicLabels config w = (.ok l, w) ∧
      ∃ r, storeGet (l.Sync host w).1.Get name = some r ∧
        "executable file not found".data <:+: r.GetResult.data := by
  have hcheck : checkLabels config.Labels = none := (checkLabels_none_iff _).mpr hvalid
  refine ⟨{ specs := config.Labels
            store := config.Labels.map (fun e => (e.1, { Result := "" }))
            running := false
            closed := config.CloseContext }, ?_, ?_⟩
  · simp only [NewDynamicLabels, hcheck]
  · refine ⟨labelResult label.Command .notFound, ?_, describe_notFound_contains _⟩
    exact syncLabels_result host config.Labels _ name label .notFound hwf hmem hmissing

/-- C2, witness: the test `TestInvalidCommand`: the command of label `foo` names
an executable that does not exist. -/
theorem sync_missing_executable_witness :
    ∃ l, NewDynamicLabels missingConfig [] = (.ok l, []) ∧
      ∃ r, storeGet (l.Sync testHost []).1.Get "foo" = some r ∧
        "executable file not found".data <:+: r.GetResult.data :=
  sync_missing_executable testHost missingConfig (by decide) (by decide) "foo"
    { Period := 1000000000, Command := ["5b0c3d1e-77aa-4d0e-9d0f-2f8f3f1c6a10"] }
    (by decide) (fun _ => rfl) []

/-- C3: `NewDynamicLabels` returns a configuration error and no engine when some
label has a period that is not greater than 0 or an empty command; it returns an
engine and no error when every label has a period greater than 0 and a non-empty
command, the configuration with zero labels included; in every case the launch
log is returned as it was: no command is executed during construction. -/
theorem NewDynamicLabels_validation (config : DynamicLabelsConfig) (w : Spawned) :
    ((∃ e ∈ config.Labels, ¬ 0 < e.2.Period ∨ e.2.Command = []) →
        ∃ err, NewDynamicLabels config w = (.error err, w)) ∧
      ((∀ e ∈ config.Labels, 0 < e.2.Period ∧ e.2.Command ≠ []) →
        ∃ l, NewDynamicLabels config w = (.ok l, w)) ∧
      (∀ c, ∃ l, NewDynamicLabels { Labels := [], CloseContext := c } w = (.ok l, w)) ∧
      (NewDynamicLabels config w).2 = w := by
  refine ⟨?_, ?_, ?_, ?_⟩
  · intro hbad
    have hne : checkLabels config.Labels ≠ none := by
      intro hnone
      obtain ⟨e, he, hb⟩ := hbad
      have hv := (checkLabels_none_iff _).mp hnone e he
      rcases hb with hb | hb
      · exact hb hv.1
      · exact hv.2 hb
    obtain ⟨err, herr⟩ := Option.ne_none_iff_exists'.mp hne
    exact ⟨err, by simp only [NewDynamicLabels, herr]⟩
  · intro hvalid
    have hcheck : checkLabels config.Labels = none := (checkLabels_none_iff _).mpr hvalid
    exact ⟨{ specs := config.Labels
             store := config.Labels.map (fun e => (e.1, { Result := "" }))
             running := false
             closed := config.CloseContext }, by simp only [NewDynamicLabels, hcheck]⟩
  · intro c
    exact ⟨_, rfl⟩
  · unfold NewDynamicLabels
    split <;> rfl

/-- C3, witness: a label with period 0 is refused, the configuration of the
tests is accepted, and the launch log stays empty in both cases. -/
theorem NewDynamicLabels_validation_witness :
    (∃ err, NewDynamicLabels zeroPeriodConfig [] = (.error err, [])) ∧
      (∃ l, NewDynamicLabels fooConfig [] = (.ok l, [])) :=
  ⟨(NewDynamicLabels_validation zeroPeriodConfig []).1
      ⟨("foo", { Period := 0, Command := ["expr", "1", "+", "3"] }), by decide, by decide⟩,
    (NewDynamicLabels_validation fooConfig []).2.1 (by decide)⟩

/-- C4: for every engine built by `NewDynamicLabels`, `Get()` directly after
construction, directly after `Run()`, and after any events during which no
command was launched, returns a map whose keys are exactly the configured label
names and whose results are all the empty string; and after any sequence of
`Sync`, `Run`, timer-tick and cancellation events the keys of `Get()` are still
exactly the configured label names. -/
theorem get_key_set (host : Host) (config : DynamicLabelsConfig) (w w1 : Spawned)
    (l : DynamicLabels) (hnew : NewDynamicLabels config w = (.ok l, w1)) :
    (l.Get.map Prod.fst = config.names ∧ ∀ e ∈ l.Get, e.2.GetResult = "") ∧
      (l.Run.Get.map Prod.fst = config.names ∧ ∀ e ∈ l.Run.Get, e.2.GetResult = "") ∧
      (∀ es, (runEvents host (l, w1) es).2 = w1 →
        ∀ e ∈ (runEvents host (l, w1) es).1.Get, e.2.GetResult = "") ∧
      ∀ es, (runEvents host (l, w1) es).1.Get.map Prod.fst = config.names := by
  obtain ⟨hl, _⟩ := NewDynamicLabels_ok config w w1 l hnew
  have hkeys : l.store.map Prod.fst = config.names := by
    rw [hl]
    simp only [List.map_map, DynamicLabelsConfig.names]
    rfl
  have hspecs : l.specs.map Prod.fst = config.names := by
    rw [hl]
    rfl
  have hempty : ∀ e ∈ l.store, e.2.GetResult = "" := by
    intro e he
    rw [hl] at he
    obtain ⟨x, _, hx⟩ := List.mem_map.mp he
    rw [← hx]
    rfl
  refine ⟨⟨hkeys, hempty⟩, ⟨hkeys, hempty⟩, ?_, ?_⟩
  · intro es hlog e he
    obtain ⟨_, _, h3⟩ := runEvents_invariant host config.names es (l, w1) hspecs hkeys
    have hstore : (runEvents host (l, w1) es).1.store = l.store := h3 (by rw [hlog])
    exact hempty e (by rw [← hstore]; exact he)
  · intro es
    exact (runEvents_invariant host config.names es (l, w1) hspecs hkeys).1

/-- C4, witness: the test `TestRun`: directly after `Run()` the result of `foo` is
empty, and after a tick, a `Sync` and a cancellation the only key is still `foo`. -/
theorem get_key_set_witness :
    (storeGet fooEngine.Run.Get "foo").map LabelResult.GetResult = some "" ∧
      (∀ e ∈ fooEngine.Run.Get, e.2.GetResult = "") ∧
      (runEvents testHost (fooEngine, [])
          [.Run, .Tick "foo", .Sync, .Cancel, .Tick "foo"]).1.Get.map Prod.fst = ["foo"] :=
  have h := get_key_set testHost fooConfig [] [] fooEngine (by decide)
  ⟨by decide, h.2.1.2, h.2.2.2 [.Run, .Tick "foo", .Sync, .Cancel, .Tick "foo"]⟩

end Teleport
